import Mathlib

/-!
Shallow embedding of the anki-words-rust repository (dictionary resolution
engine, rate-limited fetchers, enrichment pipeline and word cache), with
theorems settling the specification claims.

Sources embedded: src/model.rs, src/oxford_dict.rs, src/readwise.rs,
src/main.rs, src/db.rs.
-/

namespace AnkiWords

/-! ## Data model (src/model.rs) -/

/-- model.rs `DefinitionCategory`: closed enumeration of grammatical
categories. -/
inductive DefinitionCategory : Type where
  | noun
  | verb
  | adjective
  | adverb
  | preposition
  | interjection
  | idiomatic
  | pronoun
deriving DecidableEq, Repr

/-- strum `EnumString` with `serialize_all = "snake_case"`: `from_str`
accepts exactly the snake_case names of the variants. -/
def DefinitionCategory.fromStr : String → Option DefinitionCategory
  | "noun" => some .noun
  | "verb" => some .verb
  | "adjective" => some .adjective
  | "adverb" => some .adverb
  | "preposition" => some .preposition
  | "interjection" => some .interjection
  | "idiomatic" => some .idiomatic
  | "pronoun" => some .pronoun
  | _ => none

/-- strum `Display` with `serialize_all = "snake_case"`. -/
def DefinitionCategory.str : DefinitionCategory → String
  | .noun => "noun"
  | .verb => "verb"
  | .adjective => "adjective"
  | .adverb => "adverb"
  | .preposition => "preposition"
  | .interjection => "interjection"
  | .idiomatic => "idiomatic"
  | .pronoun => "pronoun"

/-- model.rs `Definition`: an optional definition text plus example
sentences. -/
structure Definition : Type where
  definition : Option String
  examples : List String
deriving DecidableEq, Repr

/-- model.rs `DefinitionsEntry`: the definitions of one lexical entry
together with its grammatical category. -/
structure DefinitionsEntry : Type where
  definitions : List Definition
  category : DefinitionCategory
deriving DecidableEq, Repr

/-- model.rs `Definitions = HashMap<DefinitionCategory, Vec<Definition>>`,
modelled extensionally as the mapping from category to its list of
definitions (the hash map carries no observable entry order). -/
def Definitions : Type := DefinitionCategory → List Definition

/-- model.rs `Word`. `text` is the spec's `current_text`. -/
structure Word : Type where
  text : String
  original_text : String
  translation : Option String
  definitions : Option Definitions

/-- model.rs `Word::from_text`. -/
def Word.from_text (text : String) : Word :=
  { text := text, original_text := text, translation := none, definitions := none }

/-- anyhow error values as they are observable here: a message (possibly a
context wrapper) or oxford_dict.rs `OxfordClientError::CompositeError`
aggregating several errors. -/
inductive OxError : Type where
  | msg (message : String)
  | composite (errors : List OxError)

/-! ## Oxford wire format (src/oxford_dict.rs, serde structs) -/

/-- oxford_dict.rs `CommonTextEntry`. -/
structure CommonTextEntry : Type where
  text : String
deriving DecidableEq, Repr

/-- oxford_dict.rs `EntriesSense` (recursive through `subsenses`). -/
inductive EntriesSense : Type where
  | mk (definitions : Option (List String))
       (examples : Option (List CommonTextEntry))
       (short_definitions : Option (List String))
       (subsenses : Option (List EntriesSense))
       (cross_references : Option (List CommonTextEntry)) : EntriesSense

def EntriesSense.definitions : EntriesSense → Option (List String)
  | .mk d _ _ _ _ => d

def EntriesSense.examples : EntriesSense → Option (List CommonTextEntry)
  | .mk _ e _ _ _ => e

def EntriesSense.short_definitions : EntriesSense → Option (List String)
  | .mk _ _ s _ _ => s

def EntriesSense.subsenses : EntriesSense → Option (List EntriesSense)
  | .mk _ _ _ s _ => s

def EntriesSense.cross_references : EntriesSense → Option (List CommonTextEntry)
  | .mk _ _ _ _ c => c

/-- oxford_dict.rs `EntriesEntry`. -/
structure EntriesEntry : Type where
  senses : List EntriesSense

/-- oxford_dict.rs `EntriesLexicalEntry`. -/
structure EntriesLexicalEntry : Type where
  entries : List EntriesEntry
  lexical_category : CommonTextEntry
  derivative_of : Option (List CommonTextEntry)

/-- oxford_dict.rs `EntriesResults`. -/
structure EntriesResults : Type where
  lexical_entries : List EntriesLexicalEntry

/-- oxford_dict.rs `EntriesResponse`. -/
structure EntriesResponse : Type where
  results : Option (List EntriesResults)

/-- oxford_dict.rs `LemmasLexicalEntry`. -/
structure LemmasLexicalEntry : Type where
  inflection_of : List CommonTextEntry
  lexical_category : CommonTextEntry

/-- oxford_dict.rs `LemmasResults`. -/
structure LemmasResults : Type where
  lexical_entries : List LemmasLexicalEntry

/-- oxford_dict.rs `LemmasResponse`. -/
structure LemmasResponse : Type where
  results : Option (List LemmasResults)

/-- Rust `str::to_lowercase`, modelled character-wise (agrees with the
source on the ASCII inputs handled here). Written over the character list
so that it reduces definitionally. -/
def rustToLower (s : String) : String := String.mk (s.data.map Char.toLower)

/-- Rust `str::trim`: strip whitespace from both ends. Written over the
character list so that it reduces definitionally. -/
def rustTrim (s : String) : String :=
  String.mk (((s.data.dropWhile Char.isWhitespace).reverse.dropWhile Char.isWhitespace).reverse)

/-- oxford_dict.rs `MappingResult<T>`. -/
inductive MappingResult (T : Type) : Type where
  | result (r : T)
  | otherSources (os : List String)

def MappingResult.getResult {T : Type} : MappingResult T → Option T
  | .result r => some r
  | .otherSources _ => none

def MappingResult.getOtherSources {T : Type} : MappingResult T → Option (List String)
  | .otherSources os => some os
  | .result _ => none

namespace OxfordDictClient

/-! ## Definition building (src/oxford_dict.rs lines 262-295) -/

/-- oxford_dict.rs `OxfordDictClient::build_definition`: prefer the first
short definition over the first long definition; a sense with no text but
with cross-references yields lower-cased other-source candidates. -/
def build_definition (sense : EntriesSense) : MappingResult Definition :=
  let short_definitions := sense.short_definitions.getD []
  let definitions := sense.definitions.getD []
  let definition := short_definitions.head?.orElse (fun _ => definitions.head?)
  let examples := (sense.examples.getD []).map (fun ex => ex.text)
  let cross_references := sense.cross_references.getD []
  if definition.isNone && !cross_references.isEmpty then
    .otherSources (cross_references.map (fun cte => rustToLower cte.text))
  else
    .result { definition := definition, examples := examples }

/-- oxford_dict.rs `OxfordDictClient::build_definitions`: the main sense
(with its subsenses taken out) is placed before its subsenses. -/
def build_definitions (sense : EntriesSense) : List (MappingResult Definition) :=
  let sub_senses_definitions := (sense.subsenses.getD []).map build_definition
  build_definition sense :: sub_senses_definitions

/-! ## Lexical-entry mapping (src/oxford_dict.rs lines 226-260) -/

/-- itertools `partition_result`, error side (order preserved). -/
def exceptErrs {α : Type} (l : List (Except OxError α)) : List OxError :=
  l.filterMap (fun x => match x with | .error e => some e | .ok _ => none)

/-- itertools `partition_result`, success side (order preserved). -/
def exceptOks {α : Type} (l : List (Except OxError α)) : List α :=
  l.filterMap (fun x => match x with | .ok r => some r | .error _ => none)

/-- itertools `partition_map`, `Left`/`MappingResult::Result` side. -/
def mrResults {α : Type} (l : List (MappingResult α)) : List α :=
  l.filterMap MappingResult.getResult

/-- itertools `partition_map`, `Right`/`MappingResult::OtherSources` side,
flattened as in the source. -/
def mrOtherSources {α : Type} (l : List (MappingResult α)) : List String :=
  (l.filterMap MappingResult.getOtherSources).flatten

/-- oxford_dict.rs `OxfordDictClient::map_lexical_entry`. -/
def map_lexical_entry (word_id : String) (lexical_entry : EntriesLexicalEntry) :
    Except OxError (MappingResult DefinitionsEntry) :=
  let lexical_category := rustToLower (rustTrim lexical_entry.lexical_category.text)
  match DefinitionCategory.fromStr lexical_category with
  | none => .error (.msg ("Failed to convert lexical category from " ++ lexical_category))
  | some category =>
    let mapped := (lexical_entry.entries.flatMap (fun entry => entry.senses)).flatMap build_definitions
    let definitions := mrResults mapped
    let other_sources := mrOtherSources mapped
    let definitions := definitions.filter (fun d => !d.definition.isNone)
    let derivative_of := (lexical_entry.derivative_of.getD []).map (fun dof => dof.text)
    if !definitions.isEmpty then
      .ok (.result { definitions := definitions, category := category })
    else if !other_sources.isEmpty || !derivative_of.isEmpty then
      .ok (.otherSources (other_sources ++ derivative_of))
    else
      .error (.msg ("Failed to find definitions or other sources for word " ++ word_id
        ++ " and category " ++ category.str))

/-! ## Entries resolution (src/oxford_dict.rs lines 186-224) -/

/-- All lexical entries of a response, flattened (lines 194-195). -/
def lexEntriesOf (rs : List EntriesResults) : List EntriesLexicalEntry :=
  rs.flatMap (fun result => result.lexical_entries)

/-- The per-lexical-entry mapping outcomes of a response (line 196). -/
def mapOutcomes (word_id : String) (rs : List EntriesResults) :
    List (Except OxError (MappingResult DefinitionsEntry)) :=
  (lexEntriesOf rs).map (map_lexical_entry word_id)

/-- oxford_dict.rs `OxfordDictClient::entries`, with the network call
abstracted as the oracle `api : word_id → lang → response` and the
unbounded source recursion modelled with explicit fuel (the source has no
recursion cap, see spec section 9; every claim is settled at sufficient
fuel). -/
def entriesF (api : String → String → Except OxError EntriesResponse) :
    Nat → String → String → Except OxError (String × List DefinitionsEntry)
  | 0, word_id, _ => .error (.msg ("Recursion fuel exhausted for " ++ word_id))
  | fuel + 1, word_id, lang =>
    match api word_id lang with
    | .error e => .error e
    | .ok response =>
      match response.results with
      | none => .error (.msg "Entries results array is empty")
      | some rs =>
        let mapped := mapOutcomes word_id rs
        let failures := exceptErrs mapped
        if !failures.isEmpty then
          .error (.composite failures)
        else
          let successes := exceptOks mapped
          let results := mrResults successes
          let other_sources := mrOtherSources successes
          if !results.isEmpty then
            .ok (word_id, results)
          else
            match other_sources with
            | source :: _ => entriesF api fuel source lang
            | [] => .error (.msg ("Definition entries and other sources are empty for " ++ word_id))

/-! ## Category merge and dialect fallback (src/oxford_dict.rs lines 152-184) -/

/-- One step of the `process_entries` fold: append this entry's definitions
to its category's list (`definitions.entry(key).or_insert_with(Vec::new).append(val)`). -/
def addEntry (m : Definitions) (e : DefinitionsEntry) : Definitions :=
  fun c => if c = e.category then m c ++ e.definitions else m c

/-- The category-to-definitions map built by `process_entries` lines 170-176. -/
def defsMap (es : List DefinitionsEntry) : Definitions :=
  es.foldl addEntry (fun _ => [])

/-- oxford_dict.rs `OxfordDictClient::process_entries`. -/
def process_entries (entries : String × List DefinitionsEntry) : Word :=
  { text := entries.fst
    original_text := entries.fst
    translation := none
    definitions := some (defsMap entries.snd) }

/-- oxford_dict.rs `OxfordDictClient::definitions` (the spec's `resolve`),
with `entries` abstracted as the oracle `fetch : word → dialect → result`. -/
def definitionsRes (fetch : String → String → Except OxError (String × List DefinitionsEntry))
    (word_stem : String) : Except OxError Word :=
  match fetch word_stem "en-us" with
  | .ok e => .ok (process_entries e)
  | .error e1 =>
    match fetch word_stem "en-gb" with
    | .ok e => .ok (process_entries e)
    | .error e2 => .error (.composite [e1, e2])

/-- Instrumentation of `definitions`: the sequence of `(word, dialect)`
entry lookups it performs, in evaluation order (lines 153 and 159: the
en-us lookup always runs; the en-gb lookup runs exactly when the en-us one
failed). -/
def definitionsCalls (fetch : String → String → Except OxError (String × List DefinitionsEntry))
    (word_stem : String) : List (String × String) :=
  match fetch word_stem "en-us" with
  | .ok _ => [(word_stem, "en-us")]
  | .error _ => [(word_stem, "en-us"), (word_stem, "en-gb")]

/-! ## Lemmas / stem selection (src/oxford_dict.rs lines 297-323) -/

/-- itertools `unique()`: keep the first occurrence of each element,
preserving order; `seen` is the set of already-emitted elements. -/
def uniqueAux : List String → List String → List String
  | [], _ => []
  | x :: xs, seen => if x ∈ seen then uniqueAux xs seen else x :: uniqueAux xs (x :: seen)

/-- itertools `unique()` on a string iterator. -/
def uniqueFirst (l : List String) : List String := uniqueAux l []

/-- The flattened inflection-of target texts of a lemmas response
(lines 304-308), before deduplication. -/
def inflectionTexts (results : List LemmasResults) : List String :=
  ((results.flatMap (fun result => result.lexical_entries)).flatMap
    (fun le => le.inflection_of)).map (fun inf => inf.text)

/-- oxford_dict.rs `OxfordDictClient::lemmas` (the spec's `stem`), with the
network response passed in explicitly. -/
def lemmas (word : String) (response : LemmasResponse) : Except OxError String :=
  match response.results with
  | none => .error (.msg "Lemmas results array is empty, bailing early")
  | some results =>
    let inflections := uniqueFirst (inflectionTexts results)
    if inflections.length > 1 then
      match (inflections.find? (fun inflection => inflection == word)).orElse
          (fun _ => inflections.head?) with
      | some s => .ok s
      | none => .error (.msg ("No inflections found for " ++ word))
    else
      match inflections.head? with
      | some s => .ok s
      | none => .error (.msg "No inflections found")

end OxfordDictClient

/-! ## Rate-limited request loops (src/oxford_dict.rs lines 325-345,
src/readwise.rs lines 134-157) -/

/-- One remote response as the request loops observe it: a deserialized
success, a non-rate-limit transport/deserialization failure, or a
rate-limit status carrying an optional `Retry-After` header value. -/
inductive RLResponse (T : Type) : Type where
  | ok (value : T)
  | httpError (message : String)
  | rateLimited (retryAfter : Option String)

/-- Outcome of a request loop: its result, the number of requests actually
sent, and the sequence of sleeps performed, in milliseconds. -/
structure FetchOutcome (T : Type) : Type where
  result : Except OxError T
  attempts : Nat
  waitsMs : List Nat

/-- Rust `str::parse::<u64>`: a non-empty decimal digit string whose value
fits in 64 bits. Written over the character list so that it reduces
definitionally. -/
def parseU64 (s : String) : Option Nat :=
  if s.data.isEmpty || !s.data.all Char.isDigit then none
  else
    let n := s.data.foldl (fun acc c => acc * 10 + (c.toNat - '0'.toNat)) 0
    if n < 2 ^ 64 then some n else none

/-- oxford_dict.rs `OxfordDictClient::make_request` loop body, indexed by
the iterations remaining; `service` maps the 0-based attempt index to the
response. A rate-limited response sleeps `Retry-After` seconds
(`Duration::from_secs`, recorded as `secs * 1000` milliseconds) and
retries; a missing or unparsable header propagates an error immediately
with no sleep. -/
def oxfordLoop {T : Type} (service : Nat → RLResponse T) :
    Nat → Nat → List Nat → FetchOutcome T
  | 0, attempts, waits =>
    { result := .error (.msg "Failed to get response from Oxford dict in time")
      attempts := attempts, waitsMs := waits }
  | fuel + 1, attempts, waits =>
    match service attempts with
    | .ok v => { result := .ok v, attempts := attempts + 1, waitsMs := waits }
    | .httpError m => { result := .error (.msg m), attempts := attempts + 1, waitsMs := waits }
    | .rateLimited header =>
      match header with
      | none =>
        { result := .error (.msg "Failed to get Retry-After header")
          attempts := attempts + 1, waitsMs := waits }
      | some s =>
        match parseU64 s with
        | none =>
          { result := .error (.msg "Retry-After is not a valid u64")
            attempts := attempts + 1, waitsMs := waits }
        | some secs => oxfordLoop service fuel (attempts + 1) (waits ++ [secs * 1000])

/-- oxford_dict.rs `OxfordDictClient::make_request`: `for _ in 1..3`
executes two loop iterations, so at most two requests are sent. -/
def oxford_make_request {T : Type} (service : Nat → RLResponse T) : FetchOutcome T :=
  oxfordLoop service 2 0 []

/-- readwise.rs `ReadwiseClient::make_request` loop body, indexed by the
iterations remaining. A rate-limited response sleeps
`Duration::from_millis(retry_after)` — the parsed header value taken as
milliseconds — and retries; a missing or unparsable header propagates an
error immediately with no sleep. Exhaustion is a `panic!`, modelled as an
error result. -/
def readwiseLoop {T : Type} (service : Nat → RLResponse T) :
    Nat → Nat → List Nat → FetchOutcome T
  | 0, attempts, waits =>
    { result := .error (.msg "panicked: Failed to get response from readwise in time")
      attempts := attempts, waitsMs := waits }
  | fuel + 1, attempts, waits =>
    match service attempts with
    | .ok v => { result := .ok v, attempts := attempts + 1, waitsMs := waits }
    | .httpError m => { result := .error (.msg m), attempts := attempts + 1, waitsMs := waits }
    | .rateLimited header =>
      match header with
      | none =>
        { result := .error (.msg "Tried to get Retry-After, but no header available")
          attempts := attempts + 1, waitsMs := waits }
      | some s =>
        match parseU64 s with
        | none =>
          { result := .error (.msg "Retry-After is not a valid u64")
            attempts := attempts + 1, waitsMs := waits }
        | some millis => readwiseLoop service fuel (attempts + 1) (waits ++ [millis])

/-- readwise.rs `ReadwiseClient::make_request`: `for _ in 1..=3` executes
three loop iterations, so at most three requests are sent. -/
def readwise_make_request {T : Type} (service : Nat → RLResponse T) : FetchOutcome T :=
  readwiseLoop service 3 0 []

/-! ## Enrichment pipeline (src/main.rs) -/

namespace WordProcessor

/-- main.rs `WordProcessor::process_word`, with the three remote calls
abstracted as oracles. The stem lookup falls back to the current text on
failure (`unwrap_or`); translation and definition lookup must both succeed
(`try_join!`), and only then are the three fields assigned
(lines 160-162). -/
def process_word (stem_oracle : String → Except OxError String)
    (translate_oracle : String → Except OxError String)
    (definitions_oracle : String → Except OxError Word)
    (word : Word) : Except OxError Word :=
  let word_stem :=
    match stem_oracle word.text with
    | .ok s => s
    | .error _ => word.text
  match translate_oracle word_stem, definitions_oracle word_stem with
  | .ok translation, .ok defined_word =>
    .ok { word with
            text := defined_word.text
            translation := some translation
            definitions := defined_word.definitions }
  | .error e, _ => .error e
  | .ok _, .error e => .error e

/-- main.rs `WordProcessor::redact_words`, one selected word: the operator
text replaces `text`, and `translation`/`definitions` are cleared
(lines 183-185). -/
def redact_word (word : Word) (redacted_text : String) : Word :=
  { word with text := redacted_text, translation := none, definitions := none }

/-- main.rs `WordProcessor::redact_words` over the operator-selected words
paired with their replacement texts. -/
def redact_words (selected : List (Word × String)) : List Word :=
  selected.map (fun p => redact_word p.fst p.snd)

/-! ### Cache partition (src/main.rs lines 193-210)

`HashMap<String, Word>` is modelled as an association list with unique
keys; `collect` on duplicate keys keeps the later entry, `remove` deletes
the key and returns its value. -/

/-- `HashMap::insert` semantics on an association list: replace the entry
if the key is present, otherwise add it. -/
def hmInsert (m : List (String × Word)) (k : String) (v : Word) : List (String × Word) :=
  if m.any (fun p => p.fst == k) then
    m.map (fun p => if p.fst == k then (k, v) else p)
  else
    m ++ [(k, v)]

/-- `HashMap` lookup. -/
def hmGet : List (String × Word) → String → Option Word
  | [], _ => none
  | p :: ps, k => if p.fst = k then some p.snd else hmGet ps k

/-- `HashMap::remove`, value discarded (the caller already looked it up). -/
def hmErase : List (String × Word) → String → List (String × Word)
  | [], _ => []
  | p :: ps, k => if p.fst = k then hmErase ps k else p :: hmErase ps k

/-- Lines 194-197: the cached word list collected into a map keyed by
`original_text`. -/
def buildCache (cached : List Word) : List (String × Word) :=
  cached.foldl (fun m w => hmInsert m w.original_text w) []

/-- Lines 199-207: the partition loop. `cached_words.remove` both tests
membership and consumes the entry, so each cache key can match at most one
input word. -/
def partitionLoop (m : List (String × Word)) :
    List Word → List Word → List Word → List Word × List Word
  | [], unprocessed, processed => (unprocessed, processed)
  | w :: ws, unprocessed, processed =>
    match hmGet m w.original_text with
    | some cached_word =>
      partitionLoop (hmErase m w.original_text) ws unprocessed (processed ++ [cached_word])
    | none => partitionLoop m ws (unprocessed ++ [w]) processed

/-- main.rs `WordProcessor::partition_by_processed`, with the cache file
contents passed in explicitly; returns `(unprocessed, processed)`. -/
def partition_by_processed (cached : List Word) (words : List Word) :
    List Word × List Word :=
  partitionLoop (buildCache cached) words [] []

end WordProcessor

/-! ## Cache filenames (src/db.rs lines 60-67) -/

/-- Rust regex class `\s` (Unicode `White_Space`), as used by
`Regex::new(r"[^a-z\s]")` in db.rs. -/
def regexWhitespace (c : Char) : Bool :=
  (0x9 ≤ c.val && c.val ≤ 0xD) || c.val == 0x20 || c.val == 0x85 || c.val == 0xA0 ||
    c.val == 0x1680 || (0x2000 ≤ c.val && c.val ≤ 0x200A) || c.val == 0x2028 ||
    c.val == 0x2029 || c.val == 0x202F || c.val == 0x205F || c.val == 0x3000

/-- db.rs `get_filename`: lowercase the book title, strip every character
that is not a lowercase letter or whitespace (`[^a-z\s]` replaced by the
empty string), replace spaces by underscores, and wrap as
`data/<slug>.json`. -/
def get_filename (book_name : String) : String :=
  let lowered := rustToLower book_name
  let stripped := String.mk (lowered.data.filter
    (fun c => (('a' ≤ c && c ≤ 'z') : Bool) || regexWhitespace c))
  let replaced := String.mk (stripped.data.map (fun c => if c == ' ' then '_' else c))
  "data/" ++ replaced ++ ".json"

/-! ## Concrete oracles used by claim witnesses and counterexamples -/

/-- Claim C1 api oracle: the entry for bar has no definition text but
cross-references foo; the entry for foo has a real definition. -/
def exC1api : String → String → Except OxError EntriesResponse :=
  fun w _ =>
    if w == "bar" then
      .ok ⟨some [⟨[⟨[⟨[.mk none none none none (some [⟨"foo"⟩])]⟩], ⟨"Noun"⟩, none⟩]⟩]⟩
    else if w == "foo" then
      .ok ⟨some [⟨[⟨[⟨[.mk (some ["a def"]) none none none none]⟩], ⟨"Noun"⟩, none⟩]⟩]⟩
    else
      .error (.msg "404")

/-- Claim C2 fetch oracle: en-us succeeds. -/
def exC2fetchA : String → String → Except OxError (String × List DefinitionsEntry) :=
  fun w _ => .ok (w, [])

/-- Claim C2 fetch oracle: en-us fails, en-gb succeeds. -/
def exC2fetchB : String → String → Except OxError (String × List DefinitionsEntry) :=
  fun w lang => if lang == "en-gb" then .ok (w, []) else .error (.msg "us failed")

/-- Claim C2 fetch oracle: both dialects fail. -/
def exC2fetchC : String → String → Except OxError (String × List DefinitionsEntry) :=
  fun _ lang => .error (.msg lang)

/-- Claim C6 api oracle: a single lexical entry with the unmappable
category string "article". -/
def exC6api : String → String → Except OxError EntriesResponse :=
  fun _ _ => .ok ⟨some [⟨[⟨[], ⟨"article"⟩, none⟩]⟩]⟩

/-! ## Helper lemmas -/

/-- The `process_entries` fold appends each entry's definitions to its
category's list, for any starting map. -/
theorem foldl_addEntry_apply (es : List DefinitionsEntry) (m : Definitions)
    (c : DefinitionCategory) :
    es.foldl OxfordDictClient.addEntry m c =
      m c ++ ((es.filter (fun e => e.category = c)).map (fun e => e.definitions)).flatten := by
  induction es generalizing m with
  | nil => simp
  | cons e es ih =>
    simp only [List.foldl_cons, ih, List.filter_cons]
    by_cases h : e.category = c
    · simp [OxfordDictClient.addEntry, h, List.append_assoc]
    · have h' : ¬c = e.category := fun hc => h hc.symm
      simp [OxfordDictClient.addEntry, h, h']

/-- Membership in the `unique()` accumulator run: an element appears iff
it is in the remaining input and was not already seen. -/
theorem mem_uniqueAux (y : String) (l : List String) :
    ∀ seen, y ∈ OxfordDictClient.uniqueAux l seen ↔ y ∈ l ∧ y ∉ seen := by
  induction l with
  | nil => intro seen; simp [OxfordDictClient.uniqueAux]
  | cons x xs ih =>
    intro seen
    simp only [OxfordDictClient.uniqueAux]
    by_cases hx : x ∈ seen
    · rw [if_pos hx, ih seen]
      constructor
      · rintro ⟨h1, h2⟩
        exact ⟨List.mem_cons_of_mem x h1, h2⟩
      · rintro ⟨h1, h2⟩
        rcases List.mem_cons.mp h1 with h1 | h1
        · subst h1; exact absurd hx h2
        · exact ⟨h1, h2⟩
    · rw [if_neg hx]
      constructor
      · intro hmem
        rcases List.mem_cons.mp hmem with h1 | h1
        · subst h1; exact ⟨List.mem_cons_self y xs, hx⟩
        · obtain ⟨h2, h3⟩ := (ih (x :: seen)).mp h1
          exact ⟨List.mem_cons_of_mem x h2, fun hcon => h3 (List.mem_cons_of_mem x hcon)⟩
      · rintro ⟨h1, h2⟩
        rcases List.mem_cons.mp h1 with h1 | h1
        · subst h1; exact List.mem_cons_self y _
        · by_cases hyx : y = x
          · subst hyx; exact List.mem_cons_self y _
          · refine List.mem_cons_of_mem x ((ih (x :: seen)).mpr ⟨h1, ?_⟩)
            intro hcon
            rcases List.mem_cons.mp hcon with h | h
            · exact hyx h
            · exact h2 h

/-- `unique()` output is a sublist of its input: order of first appearance
is preserved. -/
theorem uniqueAux_sublist (l : List String) :
    ∀ seen, (OxfordDictClient.uniqueAux l seen).Sublist l := by
  induction l with
  | nil => intro seen; simp [OxfordDictClient.uniqueAux]
  | cons x xs ih =>
    intro seen
    simp only [OxfordDictClient.uniqueAux]
    by_cases hx : x ∈ seen
    · rw [if_pos hx]; exact List.Sublist.cons x (ih seen)
    · rw [if_neg hx]; exact List.Sublist.cons₂ x (ih (x :: seen))

/-- `unique()` output has no duplicates. -/
theorem uniqueAux_nodup (l : List String) :
    ∀ seen, (OxfordDictClient.uniqueAux l seen).Nodup := by
  induction l with
  | nil => intro seen; simp [OxfordDictClient.uniqueAux]
  | cons x xs ih =>
    intro seen
    simp only [OxfordDictClient.uniqueAux]
    by_cases hx : x ∈ seen
    · rw [if_pos hx]; exact ih seen
    · rw [if_neg hx]
      refine List.nodup_cons.mpr ⟨?_, ih (x :: seen)⟩
      intro hcon
      exact ((mem_uniqueAux x xs (x :: seen)).mp hcon).2 (List.mem_cons_self x seen)

/-- The `unique()` run only depends on the seen set through membership. -/
theorem uniqueAux_mem_congr (l : List String) :
    ∀ s1 s2, (∀ y, y ∈ s1 ↔ y ∈ s2) →
      OxfordDictClient.uniqueAux l s1 = OxfordDictClient.uniqueAux l s2 := by
  induction l with
  | nil => intro s1 s2 _; rfl
  | cons x xs ih =>
    intro s1 s2 h
    simp only [OxfordDictClient.uniqueAux]
    by_cases hx : x ∈ s1
    · rw [if_pos hx, if_pos ((h x).mp hx)]
      exact ih s1 s2 h
    · rw [if_neg hx, if_neg (fun c => hx ((h x).mpr c))]
      rw [ih (x :: s1) (x :: s2) (fun y => by simp [List.mem_cons, h y])]

/-- Seeding the seen set with one element filters that element out of the
`unique()` output. -/
theorem uniqueAux_cons_filter (l : List String) :
    ∀ (s : String) (seen : List String),
      OxfordDictClient.uniqueAux l (s :: seen) =
        (OxfordDictClient.uniqueAux l seen).filter (fun y => y ≠ s) := by
  induction l with
  | nil => intro s seen; rfl
  | cons x xs ih =>
    intro s seen
    simp only [OxfordDictClient.uniqueAux]
    by_cases hx : x ∈ seen
    · rw [if_pos (List.mem_cons_of_mem s hx), if_pos hx]
      exact ih s seen
    · by_cases hxs : x = s
      · subst hxs
        rw [if_pos (List.mem_cons_self x seen), if_neg hx,
          List.filter_cons_of_neg (by simp)]
        refine (List.filter_eq_self.mpr ?_).symm
        intro a ha
        have h2 := ((mem_uniqueAux a xs (x :: seen)).mp ha).2
        simp only [List.mem_cons, not_or] at h2
        simp [h2.1]
      · rw [if_neg (by simp [List.mem_cons, hx, hxs]), if_neg hx,
          List.filter_cons_of_pos (by simp [hxs])]
        rw [← ih s (x :: seen)]
        rw [uniqueAux_mem_congr xs (x :: s :: seen) (s :: x :: seen)
          (fun y => by simp only [List.mem_cons]; tauto)]

/-- `unique()` keeps exactly the first occurrence of each element: the
head is kept and later occurrences of it are filtered from the dedup of
the tail. -/
theorem uniqueFirst_cons (x : String) (xs : List String) :
    OxfordDictClient.uniqueFirst (x :: xs) =
      x :: (OxfordDictClient.uniqueFirst xs).filter (fun y => y ≠ x) := by
  simp only [OxfordDictClient.uniqueFirst, OxfordDictClient.uniqueAux]
  rw [if_neg (List.not_mem_nil x)]
  rw [uniqueAux_cons_filter xs x []]

/-- An always-rate-limited service exhausts the oxford request loop: the
loop makes exactly one request per remaining iteration and then fails. -/
theorem oxfordLoop_exhaust {T : Type} (service : Nat → RLResponse T)
    (h : ∀ i, ∃ s n, service i = .rateLimited (some s) ∧ parseU64 s = some n) :
    ∀ fuel attempts waits,
      (oxfordLoop service fuel attempts waits).result =
          .error (.msg "Failed to get response from Oxford dict in time") ∧
      (oxfordLoop service fuel attempts waits).attempts = attempts + fuel := by
  intro fuel
  induction fuel with
  | zero => intro a w; exact ⟨rfl, rfl⟩
  | succ n ih =>
    intro a w
    obtain ⟨s, k, hs, hp⟩ := h a
    have := ih (a + 1) (w ++ [k * 1000])
    simp only [oxfordLoop, hs, hp]
    exact ⟨this.1, by rw [this.2]; omega⟩

/-- An always-rate-limited service exhausts the readwise request loop and
hits the terminal `panic!`. -/
theorem readwiseLoop_exhaust {T : Type} (service : Nat → RLResponse T)
    (h : ∀ i, ∃ s n, service i = .rateLimited (some s) ∧ parseU64 s = some n) :
    ∀ fuel attempts waits,
      (readwiseLoop service fuel attempts waits).result =
          .error (.msg "panicked: Failed to get response from readwise in time") ∧
      (readwiseLoop service fuel attempts waits).attempts = attempts + fuel := by
  intro fuel
  induction fuel with
  | zero => intro a w; exact ⟨rfl, rfl⟩
  | succ n ih =>
    intro a w
    obtain ⟨s, k, hs, hp⟩ := h a
    have := ih (a + 1) (w ++ [k])
    simp only [readwiseLoop, hs, hp]
    exact ⟨this.1, by rw [this.2]; omega⟩

/-! ## Claims -/

/-- Claim C10 (confirmed): the cache filename derivation of db.rs
`get_filename` is not injective: the distinct titles "Book 1" and "Book 2"
(differing only in a digit, which is stripped) map to the same cache file
path, so `save_words` for one book targets the persisted cache file of the
other. -/
theorem claim_C10 :
    get_filename "Book 1" = get_filename "Book 2" ∧ "Book 1" ≠ "Book 2" :=
  ⟨rfl, by decide⟩

/-- Claim C7 (confirmed): `process_entries` merges definitions of lexical
entries sharing a `Category` into one ordered per-category list by
appending in entry order, without deduplication; in particular two `Noun`
entries with definition lists `[a]` and `[b]` merge to `Noun ↦ [a, b]`. -/
theorem claim_C7 :
    (∀ (es : List DefinitionsEntry) (c : DefinitionCategory),
      OxfordDictClient.defsMap es c =
        ((es.filter (fun e => e.category = c)).map (fun e => e.definitions)).flatten) ∧
    (∀ a b : Definition,
      OxfordDictClient.defsMap [⟨[a], .noun⟩, ⟨[b], .noun⟩] .noun = [a, b]) := by
  constructor
  · intro es c
    have := foldl_addEntry_apply es (fun _ => []) c
    simpa [OxfordDictClient.defsMap] using this
  · intro a b
    rfl

/-- Claim C9 (confirmed): no pipeline operation modifies `original_text`
after the `Word` is created: `process_word` (stem substitution, translation
and definition population) and operator redaction replace `text`,
`translation` and `definitions` but leave `original_text` unchanged. -/
theorem claim_C9 :
    (∀ (stem_oracle translate_oracle : String → Except OxError String)
       (definitions_oracle : String → Except OxError Word) (w w' : Word),
      WordProcessor.process_word stem_oracle translate_oracle definitions_oracle w = .ok w' →
        w'.original_text = w.original_text) ∧
    (∀ (w : Word) (t : String),
      (WordProcessor.redact_word w t).original_text = w.original_text) := by
  constructor
  · intro so tro dor w w' h
    simp only [WordProcessor.process_word] at h
    split at h
    · injection h with h
      subst h
      rfl
    · exact Except.noConfusion h
    · exact Except.noConfusion h
  · intro w t
    rfl

/-- Claim C9 witness: a concrete run of `process_word` in which the stem
lookup fails (fallback to the current text), translation and definitions
succeed, and the resulting word keeps its `original_text`. -/
theorem claim_C9_witness :
    (Word.mk "stemmed" "orig" (some "tr") none).original_text =
      (Word.from_text "orig").original_text :=
  claim_C9.1 (fun _ => .error (.msg "no stem")) (fun _ => .ok "tr")
    (fun _ => .ok (Word.from_text "stemmed")) (Word.from_text "orig")
    (Word.mk "stemmed" "orig" (some "tr") none) (by rfl)

/-- Claim C4 counterexample: the oxford fetcher caps at 2 attempts total,
not 3: under a service that is rate limited on every attempt it sends
exactly 2 requests, and a service that would succeed on the third attempt
still ends in the exhaustion failure. -/
theorem claim_C4_counterexample :
    (oxford_make_request (fun _ => (RLResponse.rateLimited (some "1") : RLResponse Nat))).attempts
        = 2 ∧
    (2 : Nat) ≠ 3 ∧
    (oxford_make_request
        (fun i => if i == 2 then RLResponse.ok 7 else RLResponse.rateLimited (some "1"))).result =
      .error (.msg "Failed to get response from Oxford dict in time") :=
  ⟨rfl, by decide, rfl⟩

/-- Claim C4 (amended): when the remote service returns a rate-limit
status (with a parsable Retry-After header) on every attempt, the oxford
fetcher retries the same request up to a cap of 2 attempts total including
the first (`for _ in 1..3`), while the readwise fetcher caps at 3 attempts
total (`for _ in 1..=3`); exceeding the cap fails with the fetcher's
exhaustion error (a `bail!` and a `panic!` respectively) rather than
succeeding or diverging. -/
theorem claim_C4 {T : Type} (service : Nat → RLResponse T)
    (h : ∀ i, ∃ s n, service i = .rateLimited (some s) ∧ parseU64 s = some n) :
    (oxford_make_request service).attempts = 2 ∧
    (oxford_make_request service).result =
      .error (.msg "Failed to get response from Oxford dict in time") ∧
    (readwise_make_request service).attempts = 3 ∧
    (readwise_make_request service).result =
      .error (.msg "panicked: Failed to get response from readwise in time") := by
  have ho := oxfordLoop_exhaust service h 2 0 []
  have hr := readwiseLoop_exhaust service h 3 0 []
  exact ⟨ho.2, ho.1, hr.2, hr.1⟩

/-- Claim C4 witness: the amended claim applied to the concrete service
that is rate limited with `Retry-After: 1` on every attempt. -/
theorem claim_C4_witness :
    (oxford_make_request (fun _ => (RLResponse.rateLimited (some "1") : RLResponse Unit))).attempts
        = 2 ∧
    (oxford_make_request (fun _ => (RLResponse.rateLimited (some "1") : RLResponse Unit))).result =
      .error (.msg "Failed to get response from Oxford dict in time") ∧
    (readwise_make_request (fun _ => (RLResponse.rateLimited (some "1") : RLResponse Unit))).attempts
        = 3 ∧
    (readwise_make_request (fun _ => (RLResponse.rateLimited (some "1") : RLResponse Unit))).result =
      .error (.msg "panicked: Failed to get response from readwise in time") :=
  claim_C4 (fun _ => (RLResponse.rateLimited (some "1") : RLResponse Unit))
    (fun _ => ⟨"1", 1, rfl, rfl⟩)

/-- Claim C5 (code bug, code evaluated at the failing input): on a
rate-limit response carrying `Retry-After: 2` followed by a success, the
readwise fetcher sleeps 2 milliseconds (`Duration::from_millis`), not the
2 seconds (2000 ms) the claim requires and the oxford fetcher performs
(`Duration::from_secs`); with an absent Retry-After header both fetchers
fail immediately with no sleep. -/
theorem claim_C5_code :
    readwise_make_request
        (fun i => if i == 0 then RLResponse.rateLimited (some "2") else RLResponse.ok 42) =
      { result := .ok 42, attempts := 2, waitsMs := [2] } ∧
    oxford_make_request
        (fun i => if i == 0 then RLResponse.rateLimited (some "2") else RLResponse.ok 42) =
      { result := .ok (42 : Nat), attempts := 2, waitsMs := [2000] } ∧
    ([2] : List Nat) ≠ [2000] ∧
    readwise_make_request (fun _ => (RLResponse.rateLimited none : RLResponse Nat)) =
      { result := .error (.msg "Tried to get Retry-After, but no header available"),
        attempts := 1, waitsMs := [] } ∧
    oxford_make_request (fun _ => (RLResponse.rateLimited none : RLResponse Nat)) =
      { result := .error (.msg "Failed to get Retry-After header"),
        attempts := 1, waitsMs := [] } :=
  ⟨rfl, rfl, by decide, rfl, rfl⟩

/-- Claim C2 (confirmed): `definitions` (the spec's `resolve`) first
attempts the entry lookup in dialect en-us; exactly when that fails it
attempts en-gb; if en-us fails and en-gb succeeds the result equals
resolving directly against en-gb; and if both fail the error is the
composite error `[en-us error, en-gb error]`, discarding neither. -/
theorem claim_C2 (fetch : String → String → Except OxError (String × List DefinitionsEntry))
    (w : String) :
    (∀ r, fetch w "en-us" = .ok r →
      OxfordDictClient.definitionsRes fetch w = .ok (OxfordDictClient.process_entries r) ∧
      OxfordDictClient.definitionsCalls fetch w = [(w, "en-us")]) ∧
    (∀ e1 r, fetch w "en-us" = .error e1 → fetch w "en-gb" = .ok r →
      OxfordDictClient.definitionsRes fetch w = .ok (OxfordDictClient.process_entries r) ∧
      OxfordDictClient.definitionsCalls fetch w = [(w, "en-us"), (w, "en-gb")]) ∧
    (∀ e1 e2, fetch w "en-us" = .error e1 → fetch w "en-gb" = .error e2 →
      OxfordDictClient.definitionsRes fetch w = .error (.composite [e1, e2]) ∧
      OxfordDictClient.definitionsCalls fetch w = [(w, "en-us"), (w, "en-gb")]) := by
  refine ⟨?_, ?_, ?_⟩
  · intro r h1
    constructor
    · simp [OxfordDictClient.definitionsRes, h1]
    · simp [OxfordDictClient.definitionsCalls, h1]
  · intro e1 r h1 h2
    constructor
    · simp [OxfordDictClient.definitionsRes, h1, h2]
    · simp [OxfordDictClient.definitionsCalls, h1]
  · intro e1 e2 h1 h2
    constructor
    · simp [OxfordDictClient.definitionsRes, h1, h2]
    · simp [OxfordDictClient.definitionsCalls, h1]


/-- Claim C2 witness: the three branches of the fallback exercised on
concrete fetch oracles. -/
theorem claim_C2_witness :
    (OxfordDictClient.definitionsRes exC2fetchA "w" =
        .ok (OxfordDictClient.process_entries ("w", [])) ∧
      OxfordDictClient.definitionsCalls exC2fetchA "w" = [("w", "en-us")]) ∧
    (OxfordDictClient.definitionsRes exC2fetchB "w" =
        .ok (OxfordDictClient.process_entries ("w", [])) ∧
      OxfordDictClient.definitionsCalls exC2fetchB "w" = [("w", "en-us"), ("w", "en-gb")]) ∧
    (OxfordDictClient.definitionsRes exC2fetchC "w" =
        .error (.composite [.msg "en-us", .msg "en-gb"]) ∧
      OxfordDictClient.definitionsCalls exC2fetchC "w" = [("w", "en-us"), ("w", "en-gb")]) :=
  ⟨(claim_C2 exC2fetchA "w").1 ("w", []) rfl,
   (claim_C2 exC2fetchB "w").2.1 (.msg "us failed") ("w", []) rfl rfl,
   (claim_C2 exC2fetchC "w").2.2 (.msg "en-us") (.msg "en-gb") rfl rfl⟩

/-- Unfolding of `lemmas` on a response with a present results array. -/
theorem lemmas_some_eq (word : String) (results : List LemmasResults) :
    OxfordDictClient.lemmas word ⟨some results⟩ =
      (if (OxfordDictClient.uniqueFirst (OxfordDictClient.inflectionTexts results)).length > 1 then
        match ((OxfordDictClient.uniqueFirst (OxfordDictClient.inflectionTexts results)).find?
            (fun inflection => inflection == word)).orElse
            (fun _ => (OxfordDictClient.uniqueFirst (OxfordDictClient.inflectionTexts results)).head?) with
        | some s => .ok s
        | none => .error (.msg ("No inflections found for " ++ word))
      else
        match (OxfordDictClient.uniqueFirst (OxfordDictClient.inflectionTexts results)).head? with
        | some s => .ok s
        | none => .error (.msg "No inflections found")) := rfl

/-- Claim C3 (confirmed): `lemmas` (the spec's `stem`) deduplicates the
inflection-of target strings keeping the first occurrence of each in
order (no duplicates, a sublist of the input, same members, and the
first-occurrence recursion equation); then, on the deduplicated list: a
singleton is returned directly; with more than one member, a member
textually identical to the input word is preferred when present,
otherwise the first-seen member is returned; an empty list fails with the
no-inflections error. -/
theorem claim_C3 (word : String) (results : List LemmasResults) :
    ((OxfordDictClient.uniqueFirst (OxfordDictClient.inflectionTexts results)).Nodup ∧
     (OxfordDictClient.uniqueFirst (OxfordDictClient.inflectionTexts results)).Sublist
       (OxfordDictClient.inflectionTexts results) ∧
     (∀ x, x ∈ OxfordDictClient.uniqueFirst (OxfordDictClient.inflectionTexts results) ↔
       x ∈ OxfordDictClient.inflectionTexts results) ∧
     (∀ (x : String) (xs : List String),
       OxfordDictClient.uniqueFirst (x :: xs) =
         x :: (OxfordDictClient.uniqueFirst xs).filter (fun y => y ≠ x))) ∧
    (∀ x, OxfordDictClient.uniqueFirst (OxfordDictClient.inflectionTexts results) = [x] →
      OxfordDictClient.lemmas word ⟨some results⟩ = .ok x) ∧
    ((OxfordDictClient.uniqueFirst (OxfordDictClient.inflectionTexts results)).length > 1 →
      word ∈ OxfordDictClient.uniqueFirst (OxfordDictClient.inflectionTexts results) →
      OxfordDictClient.lemmas word ⟨some results⟩ = .ok word) ∧
    (∀ y ys, OxfordDictClient.uniqueFirst (OxfordDictClient.inflectionTexts results) = y :: ys →
      (OxfordDictClient.uniqueFirst (OxfordDictClient.inflectionTexts results)).length > 1 →
      word ∉ OxfordDictClient.uniqueFirst (OxfordDictClient.inflectionTexts results) →
      OxfordDictClient.lemmas word ⟨some results⟩ = .ok y) ∧
    (OxfordDictClient.uniqueFirst (OxfordDictClient.inflectionTexts results) = [] →
      OxfordDictClient.lemmas word ⟨some results⟩ =
        .error (.msg "No inflections found")) := by
  refine ⟨⟨uniqueAux_nodup _ [], uniqueAux_sublist _ [],
    fun x => by simpa using mem_uniqueAux x (OxfordDictClient.inflectionTexts results) [],
    fun x xs => uniqueFirst_cons x xs⟩, ?_, ?_, ?_, ?_⟩
  · intro x h
    rw [lemmas_some_eq, h]
    simp
  · intro hlen hmem
    have hfind : (OxfordDictClient.uniqueFirst (OxfordDictClient.inflectionTexts results)).find?
        (fun inflection => inflection == word) = some word := by
      cases hf : (OxfordDictClient.uniqueFirst (OxfordDictClient.inflectionTexts results)).find?
          (fun inflection => inflection == word) with
      | none =>
        have := List.find?_eq_none.mp hf word hmem
        simp at this
      | some y =>
        have hy := List.find?_some hf
        have : y = word := by simpa using hy
        rw [← this]
    rw [lemmas_some_eq, if_pos hlen, hfind]
    rfl
  · intro y ys h hlen hmem
    have hfind : (OxfordDictClient.uniqueFirst (OxfordDictClient.inflectionTexts results)).find?
        (fun inflection => inflection == word) = none := by
      refine List.find?_eq_none.mpr ?_
      intro x hx hpx
      have : x = word := by simpa using hpx
      exact hmem (this ▸ hx)
    rw [lemmas_some_eq, if_pos hlen, hfind, h]
    rfl
  · intro h
    rw [lemmas_some_eq, h]
    simp

/-- Claim C3 witness: the four selection branches at concrete responses:
a singleton inflection set, a multi-member set containing the input word,
a multi-member set not containing it, and an empty set. -/
theorem claim_C3_witness :
    OxfordDictClient.lemmas "x" ⟨some [⟨[⟨[⟨"ran"⟩], ⟨"verb"⟩⟩]⟩]⟩ = .ok "ran" ∧
    OxfordDictClient.lemmas "run" ⟨some [⟨[⟨[⟨"run"⟩, ⟨"runner"⟩], ⟨"verb"⟩⟩]⟩]⟩ = .ok "run" ∧
    OxfordDictClient.lemmas "zzz" ⟨some [⟨[⟨[⟨"alpha"⟩, ⟨"beta"⟩], ⟨"noun"⟩⟩]⟩]⟩ = .ok "alpha" ∧
    OxfordDictClient.lemmas "w" ⟨some []⟩ = .error (.msg "No inflections found") :=
  ⟨(claim_C3 "x" [⟨[⟨[⟨"ran"⟩], ⟨"verb"⟩⟩]⟩]).2.1 "ran" rfl,
   (claim_C3 "run" [⟨[⟨[⟨"run"⟩, ⟨"runner"⟩], ⟨"verb"⟩⟩]⟩]).2.2.1 (by decide) (by decide),
   (claim_C3 "zzz" [⟨[⟨[⟨"alpha"⟩, ⟨"beta"⟩], ⟨"noun"⟩⟩]⟩]).2.2.2.1 "alpha" ["beta"] rfl
     (by decide) (by decide),
   (claim_C3 "w" []).2.2.2.2 rfl⟩

/-- Claim C6 (confirmed): if any lexical entry of the response has a
grammatical-category string that does not map into `DefinitionCategory`,
the whole `entries` call fails with the composite error of the collected
mapping failures — which contains that category failure — so no lexical
entry of the response contributes definitions to a successful result. -/
theorem claim_C6 (api : String → String → Except OxError EntriesResponse)
    (fuel : Nat) (word lang : String) (resp : EntriesResponse)
    (rs : List EntriesResults) (le : EntriesLexicalEntry)
    (hapi : api word lang = .ok resp)
    (hres : resp.results = some rs)
    (hmem : le ∈ OxfordDictClient.lexEntriesOf rs)
    (hbad : DefinitionCategory.fromStr (rustToLower (rustTrim le.lexical_category.text)) = none) :
    OxfordDictClient.entriesF api (fuel + 1) word lang =
      .error (.composite (OxfordDictClient.exceptErrs (OxfordDictClient.mapOutcomes word rs))) ∧
    OxError.msg ("Failed to convert lexical category from "
        ++ rustToLower (rustTrim le.lexical_category.text))
      ∈ OxfordDictClient.exceptErrs (OxfordDictClient.mapOutcomes word rs) := by
  have hmle : OxfordDictClient.map_lexical_entry word le =
      .error (.msg ("Failed to convert lexical category from "
        ++ rustToLower (rustTrim le.lexical_category.text))) := by
    simp only [OxfordDictClient.map_lexical_entry, hbad]
  have hmember : OxError.msg ("Failed to convert lexical category from "
      ++ rustToLower (rustTrim le.lexical_category.text))
      ∈ OxfordDictClient.exceptErrs (OxfordDictClient.mapOutcomes word rs) := by
    simp only [OxfordDictClient.exceptErrs, OxfordDictClient.mapOutcomes]
    refine List.mem_filterMap.mpr ⟨.error (.msg ("Failed to convert lexical category from "
      ++ rustToLower (rustTrim le.lexical_category.text))), ?_, rfl⟩
    exact List.mem_map.mpr ⟨le, hmem, hmle⟩
  have hemp : (OxfordDictClient.exceptErrs (OxfordDictClient.mapOutcomes word rs)).isEmpty
      = false :=
    List.isEmpty_eq_false.mpr (List.ne_nil_of_mem hmember)
  refine ⟨?_, hmember⟩
  simp only [OxfordDictClient.entriesF, hapi, hres, hemp]
  rfl


/-- Claim C6 witness: on the concrete response with category "article",
the whole call fails with a composite error containing the mapping
failure. -/
theorem claim_C6_witness :
    OxfordDictClient.entriesF exC6api 1 "w" "en-us" =
      .error (.composite (OxfordDictClient.exceptErrs (OxfordDictClient.mapOutcomes "w"
        [⟨[⟨[], ⟨"article"⟩, none⟩]⟩]))) ∧
    OxError.msg ("Failed to convert lexical category from "
        ++ rustToLower (rustTrim "article"))
      ∈ OxfordDictClient.exceptErrs (OxfordDictClient.mapOutcomes "w"
        [⟨[⟨[], ⟨"article"⟩, none⟩]⟩]) :=
  claim_C6 exC6api 0 "w" "en-us" ⟨some [⟨[⟨[], ⟨"article"⟩, none⟩]⟩]⟩
    [⟨[⟨[], ⟨"article"⟩, none⟩]⟩] ⟨[], ⟨"article"⟩, none⟩
    rfl rfl (List.mem_singleton_self _) rfl

/-- Claim C1 counterexample: with the entry for "bar" carrying only the
cross-reference "foo" and "foo" resolving to a real definition, the
resolved categorized definitions are returned associated with the
candidate word id "foo", not with the original word id "bar" as the claim
states. -/
theorem claim_C1_counterexample :
    OxfordDictClient.entriesF exC1api 2 "bar" "en-us" =
      .ok ("foo", [⟨[⟨some "a def", []⟩], .noun⟩]) ∧
    ("foo" : String) ≠ "bar" :=
  ⟨rfl, by decide⟩

/-- Claim C1 (amended): when the fetched entries produce no mapping
failures, no lexical entry yields a `Definition` with text, and at least
one other-source candidate exists, `entries` recurses on exactly the first
candidate, in the same dialect, and returns the recursive result verbatim
— so when the candidate resolves, the categorized definitions come back
associated with the candidate's word id, not re-keyed to the original
word id. -/
theorem claim_C1 (api : String → String → Except OxError EntriesResponse)
    (fuel : Nat) (word lang : String) (resp : EntriesResponse)
    (rs : List EntriesResults) (c : String) (cs : List String)
    (hapi : api word lang = .ok resp)
    (hres : resp.results = some rs)
    (hfail : OxfordDictClient.exceptErrs (OxfordDictClient.mapOutcomes word rs) = [])
    (hnores : OxfordDictClient.mrResults
      (OxfordDictClient.exceptOks (OxfordDictClient.mapOutcomes word rs)) = [])
    (hos : OxfordDictClient.mrOtherSources
      (OxfordDictClient.exceptOks (OxfordDictClient.mapOutcomes word rs)) = c :: cs) :
    OxfordDictClient.entriesF api (fuel + 1) word lang =
      OxfordDictClient.entriesF api fuel c lang := by
  simp only [OxfordDictClient.entriesF, hapi, hres, hfail, hnores, hos]
  rfl

/-- Claim C1 witness: the amended claim at the concrete api oracle — the
call for "bar" is exactly the recursive call for its first (and only)
cross-reference candidate "foo" in the same dialect. -/
theorem claim_C1_witness :
    OxfordDictClient.entriesF exC1api 2 "bar" "en-us" =
      OxfordDictClient.entriesF exC1api 1 "foo" "en-us" :=
  claim_C1 exC1api 1 "bar" "en-us"
    ⟨some [⟨[⟨[⟨[.mk none none none none (some [⟨"foo"⟩])]⟩], ⟨"Noun"⟩, none⟩]⟩]⟩
    [⟨[⟨[⟨[.mk none none none none (some [⟨"foo"⟩])]⟩], ⟨"Noun"⟩, none⟩]⟩]
    "foo" [] rfl rfl rfl rfl rfl

/-- Removing one key from the map leaves lookups of other keys
unchanged. -/
theorem hmGet_hmErase_ne (k k' : String) (h : k' ≠ k) :
    ∀ m, WordProcessor.hmGet (WordProcessor.hmErase m k) k' = WordProcessor.hmGet m k' := by
  intro m
  induction m with
  | nil => rfl
  | cons p ps ih =>
    simp only [WordProcessor.hmErase]
    by_cases hp : p.fst = k
    · rw [if_pos hp, ih]
      have hpk : ¬p.fst = k' := by rw [hp]; exact fun e => h e.symm
      simp only [WordProcessor.hmGet]
      rw [if_neg hpk]
    · rw [if_neg hp]
      simp only [WordProcessor.hmGet]
      by_cases hpk : p.fst = k'
      · rw [if_pos hpk, if_pos hpk]
      · rw [if_neg hpk, if_neg hpk, ih]

/-- The partition loop, on inputs with pairwise distinct `original_text`,
is the pure split of the input along cache-key membership: to-process
words are kept unchanged, output words are taken from the cache. -/
theorem partitionLoop_spec (ws : List Word) :
    ∀ (m : List (String × Word)) (unproc proc : List Word),
      (ws.map (fun w => w.original_text)).Nodup →
      WordProcessor.partitionLoop m ws unproc proc =
        (unproc ++ ws.filter (fun w => (WordProcessor.hmGet m w.original_text).isNone),
         proc ++ ws.filterMap (fun w => WordProcessor.hmGet m w.original_text)) := by
  induction ws with
  | nil =>
    intro m u p _
    simp [WordProcessor.partitionLoop]
  | cons w ws ih =>
    intro m u p hnd
    have hw : w.original_text ∉ ws.map (fun w' => w'.original_text) :=
      (List.nodup_cons.mp hnd).1
    have hnd' := (List.nodup_cons.mp hnd).2
    have hne : ∀ x ∈ ws, x.original_text ≠ w.original_text := by
      intro x hx e
      exact hw (e ▸ List.mem_map_of_mem _ hx)
    simp only [WordProcessor.partitionLoop]
    cases hg : WordProcessor.hmGet m w.original_text with
    | none =>
      dsimp only
      rw [ih m (u ++ [w]) p hnd']
      simp only [List.filter_cons, List.filterMap_cons, hg]
      simp [List.append_assoc]
    | some cw =>
      dsimp only
      rw [ih (WordProcessor.hmErase m w.original_text) u (p ++ [cw]) hnd']
      have hcong1 : ws.filter (fun x =>
            (WordProcessor.hmGet (WordProcessor.hmErase m w.original_text)
              x.original_text).isNone)
          = ws.filter (fun x => (WordProcessor.hmGet m x.original_text).isNone) := by
        refine List.filter_congr ?_
        intro x hx
        rw [hmGet_hmErase_ne _ _ (hne x hx) m]
      have hcong2 : ws.filterMap (fun x =>
            WordProcessor.hmGet (WordProcessor.hmErase m w.original_text) x.original_text)
          = ws.filterMap (fun x => WordProcessor.hmGet m x.original_text) := by
        refine List.filterMap_congr ?_
        intro x hx
        exact hmGet_hmErase_ne _ _ (hne x hx) m
      rw [hcong1, hcong2]
      simp only [List.filter_cons, List.filterMap_cons, hg]
      simp [List.append_assoc]

/-- Claim C8 counterexample: with the cache holding one word keyed "a" and
an input list containing two words with `original_text` "a", the second
input word has a cache-key `original_text` yet lands in the to-process
set (the `remove` in the loop consumed the cache entry), so the partition
is not the claimed pure split for every input list. -/
theorem claim_C8_counterexample :
    WordProcessor.partition_by_processed [⟨"x", "a", none, none⟩]
        [⟨"a", "a", none, none⟩, ⟨"a", "a", none, none⟩] =
      ([⟨"a", "a", none, none⟩], [⟨"x", "a", none, none⟩]) ∧
    WordProcessor.hmGet (WordProcessor.buildCache [⟨"x", "a", none, none⟩]) "a" =
      some ⟨"x", "a", none, none⟩ :=
  ⟨rfl, rfl⟩

/-- Claim C8 (amended): provided the input words have pairwise distinct
`original_text` values (guaranteed upstream by the highlight-source
deduplication), the partition with `force = false` is a pure set split on
`original_text`: every input word whose `original_text` is a cache key is
moved to the output set as the cached word, unchanged and unmerged, and
every other input word is placed, unchanged, in the to-process set. With
duplicated `original_text` in the input, only the first occurrence is
moved to the output set — the loop consumes the cache entry — and later
duplicates go to the to-process set. -/
theorem claim_C8 (cached words : List Word)
    (hnd : (words.map (fun w => w.original_text)).Nodup) :
    WordProcessor.partition_by_processed cached words =
      (words.filter (fun w =>
        (WordProcessor.hmGet (WordProcessor.buildCache cached) w.original_text).isNone),
       words.filterMap (fun w =>
        WordProcessor.hmGet (WordProcessor.buildCache cached) w.original_text)) := by
  unfold WordProcessor.partition_by_processed
  rw [partitionLoop_spec words (WordProcessor.buildCache cached) [] [] hnd]
  simp

/-- Claim C8 witness: the amended claim at a concrete cache and input —
the cached word (and not the raw input word) moves to the output set, the
cache-miss word stays in the to-process set. -/
theorem claim_C8_witness :
    WordProcessor.partition_by_processed [⟨"x", "a", none, none⟩]
        [⟨"a", "a", none, none⟩, ⟨"b", "b", none, none⟩] =
      ([⟨"b", "b", none, none⟩], [⟨"x", "a", none, none⟩]) :=
  claim_C8 [⟨"x", "a", none, none⟩]
    [⟨"a", "a", none, none⟩, ⟨"b", "b", none, none⟩] (by simp)

end AnkiWords
